import Mathlib

/-!
Shallow embedding of `src/kalamar/item.py` (classes `Item`, `AtomItem`,
`ItemProperties`) together with the parts of `werkzeug.MultiDict` the file
relies on (`__getitem__`, `__setitem__`, `getlist`, iteration over keys).

Python dictionaries and MultiDicts are modelled as insertion-ordered
association lists.  Python values are modelled by `PyVal` (the `None`
sentinel and strings suffice for every claim).  Python exceptions are
modelled by an `Except PErr` result; the half-performed mutations that
precede a raise are kept, so each fallible operation returns both an
`Except` result and the updated state.

Subclass overrides of `_custom_parse_data` / `_custom_serialize` are
modelled by the `ParseBehavior` / `SerBehavior` fields: `base` is the body
defined on class `Item`, `atom` the one on `AtomItem`, and `custom` an
arbitrary override.  The item also carries two ghost counters,
`parseCount` and `parseFailCount`, counting invocations of the parse hook
and failed `_parse_data` runs; they instrument the semantics without
influencing it.
-/

namespace Kalamar

/-- A Python value: the `None` sentinel or a string. -/
inductive PyVal : Type where
  | none : PyVal
  | str (s : String) : PyVal
deriving DecidableEq, Repr

/-- A Python exception, as observed by the operations of `item.py`. -/
inductive PErr : Type where
  | keyError : PErr
  | indexError : PErr
  | typeError : PErr
  | attributeError : PErr
  | parserNotAvailable (fmt : String) : PErr
  | hookErr : PErr
deriving DecidableEq, Repr

/-- Python `len(v)` for a `PyVal`: defined on strings, a `TypeError` on `None`. -/
def pyLen : PyVal → Except PErr Nat
  | PyVal.none => .error .typeError
  | PyVal.str s => .ok s.length

/-- Association-list lookup, modelling `d[k]` / `d.get(k)` on a Python dict
whose keys are unique. -/
def lookupA {α : Type} : List (String × α) → String → Option α
  | [], _ => Option.none
  | (k1, v) :: rest, k => if k1 = k then some v else lookupA rest k

/-- Association-list update, modelling `d[k] = v` on a Python dict: an
existing key keeps its position, a new key is appended (insertion order). -/
def setA {α : Type} : List (String × α) → String → α → List (String × α)
  | [], k, v => [(k, v)]
  | (k1, v1) :: rest, k, v =>
      if k1 = k then (k, v) :: rest else (k1, v1) :: setA rest k v

/-- Membership test `k in d` on a Python dict. -/
def containsA {α : Type} (l : List (String × α)) (k : String) : Bool :=
  (lookupA l k).isSome

/-- Python `d1.update(d2)`: every binding of `d2` is written into `d1`. -/
def dictUpdate {α : Type} (d1 d2 : List (String × α)) : List (String × α) :=
  d2.foldl (fun acc kv => setA acc kv.1 kv.2) d1

/-- A plain Python dict from names to values (`storage_properties`,
the dict built inside `Item.serialize`, the `properties` dict of a caller). -/
abbrev Smap := List (String × PyVal)

/-- The contents of a `werkzeug.MultiDict`: a dict from names to lists of
values (the own storage of `ItemProperties`, results of `_custom_parse_data`). -/
abbrev Mdict := List (String × List PyVal)

/-- An alias table (`parser_aliases`, `storage_aliases`, their merge). -/
abbrev Dict := List (String × String)

/-- MultiDict `__setitem__`: `md[k] = v` stores the one-element list `[v]`. -/
def mdSet (md : Mdict) (k : String) (v : PyVal) : Mdict :=
  setA md k [v]

/-- First-value lookup `dict.__getitem__(md, k)[0]` on a MultiDict:
`KeyError` when the key is
absent, `IndexError` when its value list is empty. -/
def mdGetFirstE (md : Mdict) (k : String) : Except PErr PyVal :=
  match lookupA md k with
  | Option.none => .error .keyError
  | some [] => .error .indexError
  | some (v :: _) => .ok v

/-- Every value list of the MultiDict is non-empty (true in every state the
code itself constructs: `__setitem__` always stores a one-element list). -/
def mdWF (md : Mdict) : Bool :=
  md.all (fun p => !p.2.isEmpty)

/-- Alias resolution `self._item.aliases.get(key, key)`: identity when no
alias is defined. -/
def aliasResolve (al : Dict) (k : String) : String :=
  (lookupA al k).getD k

/-- The state of an `ItemProperties` instance (minus the back reference to
its item, which the operations receive explicitly). -/
structure ItemProperties : Type where
  /-- field `self._loaded` -/
  loaded : Bool
  /-- field `self.storage_properties` -/
  storage_properties : Smap
  /-- field `self.storage_properties_old` -/
  storage_properties_old : Smap
  /-- the MultiDict contents of `self` itself (the parsed-origin store) -/
  md : Mdict
  /-- field `self.parser_content_modified` -/
  parser_content_modified : Bool

/-- The body of `_custom_parse_data`: `base` is the one of class `Item`
(an empty MultiDict), `atom` the one of `AtomItem` (the whole stream
under `_content`), `custom` an arbitrary subclass override (it receives
the number of previous invocations, so a stateful override can answer
differently on a retry, and may raise). -/
inductive ParseBehavior : Type where
  | base : ParseBehavior
  | atom : ParseBehavior
  | custom (f : Nat → Except PErr Mdict) : ParseBehavior

/-- The body of `_custom_serialize`: `base` is the one of class `Item`
(the empty string), `atom` the one of `AtomItem` (the `_content` entry of
the given dict), `custom` an arbitrary subclass override. -/
inductive SerBehavior : Type where
  | base : SerBehavior
  | atom : SerBehavior
  | custom (f : Smap → Except PErr PyVal) : SerBehavior

/-- The state of an `Item` (or subclass) instance.  The opener is modelled
by the contents of the stream it would produce (`none` models the Python
value `None`); the opened stream is its contents plus a consumed flag. -/
structure Item : Type where
  /-- field `self.aliases` (merge of parser and storage aliases) -/
  aliases : Dict
  /-- field `self._opener`: `none`, or the contents of the stream it yields -/
  opener : Option String
  /-- field `self._stream`: `none` until opened, then (contents, consumed) -/
  stream : Option (String × Bool)
  /-- which `_custom_parse_data` the class of this instance defines -/
  parseB : ParseBehavior
  /-- which `_custom_serialize` the class of this instance defines -/
  serB : SerBehavior
  /-- field `self.properties` -/
  props : ItemProperties
  /-- ghost: number of `_custom_parse_data` invocations so far -/
  parseCount : Nat
  /-- ghost: number of `_parse_data` runs that ended in an exception -/
  parseFailCount : Nat

/-- Method `ItemProperties.__setitem__(key, value)` (alias resolution, then either
the storage sub-dict or the MultiDict plus the modified flag). -/
def propsSetitem (aliases : Dict) (p : ItemProperties) (key : String)
    (v : PyVal) : ItemProperties :=
  let k := aliasResolve aliases key
  if containsA p.storage_properties k then
    { p with storage_properties := setA p.storage_properties k v }
  else
    { p with md := mdSet p.md k v, parser_content_modified := true }

/-- Constructor `ItemProperties.__init__(item, storage_properties)`:
unloaded, the old snapshot is a copy, the assignment of the empty string
to the `_content` key goes through `__setitem__` (so it is alias-resolved
and may land in the storage sub-dict), and the modified flag is reset to
`False` afterwards. -/
def ItemProperties.init (aliases : Dict) (sp : Smap) : ItemProperties :=
  let p0 : ItemProperties :=
    { loaded := false, storage_properties := sp, storage_properties_old := sp,
      md := [], parser_content_modified := false }
  let p1 := propsSetitem aliases p0 "_content" (PyVal.str "")
  { p1 with parser_content_modified := false }

/-- Constructor `Item.__init__(access_point, opener, storage_properties)`:
`self.aliases = dict(parser_aliases); self.aliases.update(storage_aliases)`
(storage aliases win on collision), then the properties store.
(`self.aliases_rev` is also built there, from `enumerate`, but no operation
of the file reads it, so it is omitted.) -/
def mkItem (parserAliases storageAliases : Dict) (op : Option String)
    (sp : Smap) (pb : ParseBehavior) (sb : SerBehavior) : Item :=
  let aliases := dictUpdate parserAliases storageAliases
  { aliases := aliases, opener := op, stream := Option.none,
    parseB := pb, serB := sb,
    props := ItemProperties.init aliases sp,
    parseCount := 0, parseFailCount := 0 }

/-- Method `Item._open()`: open the stream on first use, when an opener
exists. -/
def openStream (it : Item) : Item :=
  match it.stream, it.opener with
  | Option.none, some s => { it with stream := some (s, false) }
  | _, _ => it

/-- Run the `_custom_parse_data` body of the class against the current
stream (argument: number of previous invocations).  The `AtomItem` body
reads the
stream: reading an unopened (`None`) stream is an `AttributeError`, a
second read of the same stream yields the empty string. -/
def runParseB : ParseBehavior → Option (String × Bool) → Nat →
    (Except PErr Mdict) × Option (String × Bool)
  | .base, st, _ => (.ok [], st)
  | .atom, Option.none, _ => (.error .attributeError, Option.none)
  | .atom, some (s, false), _ =>
      (.ok [("_content", [PyVal.str s])], some (s, true))
  | .atom, some (s, true), _ =>
      (.ok [("_content", [PyVal.str ""])], some (s, true))
  | .custom f, st, n => (f n, st)

/-- The loop of `update_parser_properties`: for each parsed key,
`super().__setitem__(key, properties[key])` — i.e. overwrite the MultiDict
entry with the one-element list holding the first element of the parsed
value.  `properties[key]` raises `IndexError` when the parsed value list
is empty;
the keys already processed stay written (in-place mutation). -/
def mergeParsed : Mdict → Mdict → (Except PErr Unit) × Mdict
  | md, [] => (.ok (), md)
  | md, (k, vs) :: rest =>
      match vs with
      | [] => (.error .indexError, md)
      | v :: _ => mergeParsed (mdSet md k v) rest

/-- Method `ItemProperties.update_parser_properties(properties)`.  When
the store is not loaded, the length of the first MultiDict value of the
`_content` key is evaluated (which can raise `KeyError`, `IndexError` or
`TypeError`); its only further effect is removing `_content` from the
local list `pkeys`, and `pkeys` is dead afterwards because the
guard in the loop is `if True or key not in pkeys` — so every parsed key
is overwritten unconditionally. -/
def updateParserProperties (p : ItemProperties) (parsed : Mdict) :
    (Except PErr Unit) × ItemProperties :=
  if p.loaded then
    let r := mergeParsed p.md parsed
    (r.1, { p with md := r.2 })
  else
    match mdGetFirstE p.md "_content" with
    | .error e => (.error e, p)
    | .ok v =>
        match pyLen v with
        | .error e => (.error e, p)
        | .ok _ =>
            let r := mergeParsed p.md parsed
            (r.1, { p with md := r.2 })

/-- Method `Item._parse_data()`: open the stream, run `_custom_parse_data`
(counted by the ghost `parseCount`), then merge the result with
`update_parser_properties`.  An exception anywhere leaves the mutations
performed so far in place and bumps the ghost `parseFailCount`. -/
def parseData (it : Item) : (Except PErr Unit) × Item :=
  let it1 := openStream it
  let r := runParseB it1.parseB it1.stream it1.parseCount
  let it2 := { it1 with stream := r.2, parseCount := it1.parseCount + 1 }
  match r.1 with
  | .error e =>
      (.error e, { it2 with parseFailCount := it2.parseFailCount + 1 })
  | .ok parsed =>
      let u := updateParserProperties it2.props parsed
      match u.1 with
      | .ok _ => (.ok (), { it2 with props := u.2 })
      | .error e =>
          (.error e,
            { it2 with
                props := u.2
                parseFailCount := it2.parseFailCount + 1 })

/-- Method `ItemProperties.__getitem__(key)`: alias resolution; a
storage-origin
key answers from `storage_properties`; otherwise a not-yet-loaded store
runs `_parse_data` and only then sets `_loaded = True` (an exception skips
that assignment and propagates); finally the first MultiDict value is
returned, with `KeyError` caught and turned into `None` (an `IndexError`
from an empty value list is not caught). -/
def pgetitem (it : Item) (key : String) : (Except PErr PyVal) × Item :=
  let k := aliasResolve it.aliases key
  if containsA it.props.storage_properties k then
    (.ok ((lookupA it.props.storage_properties k).getD PyVal.none), it)
  else
    let step : (Except PErr Unit) × Item :=
      if it.props.loaded then (.ok (), it)
      else
        match parseData it with
        | (.ok _, it2) =>
            (.ok (), { it2 with props := { it2.props with loaded := true } })
        | (.error e, it2) => (.error e, it2)
    match step with
    | (.error e, it1) => (.error e, it1)
    | (.ok _, it1) =>
        match mdGetFirstE it1.props.md k with
        | .error .keyError => (.ok PyVal.none, it1)
        | .error e => (.error e, it1)
        | .ok v => (.ok v, it1)

/-- Method `ItemProperties.__setitem__` lifted to the item. -/
def psetitem (it : Item) (key : String) (v : PyVal) : Item :=
  { it with props := propsSetitem it.aliases it.props key v }

/-- Method `MultiDict.getlist(key)` — inherited unchanged by
`ItemProperties`:
the raw value list for the literal key, `[]` when absent; no alias
resolution, no storage lookup, no lazy load. -/
def getlist (it : Item) (key : String) : List PyVal :=
  (lookupA it.props.md key).getD []

/-- Method `Item.content_modified()`. -/
def contentModified (it : Item) : Bool :=
  it.props.parser_content_modified

/-- Method `ItemProperties.keys_without_aliases()`: the set union of the
MultiDict keys and the storage keys.  Python iterates this `set` in an
unspecified order; the canonical order below (MultiDict keys first, then
storage keys, first occurrence kept) is one of them, and every consumer in
the file builds a dict keyed by these names, so the outcome is
order-independent. -/
def keysWithoutAliases (p : ItemProperties) : List String :=
  (p.md.map Prod.fst ++ p.storage_properties.map Prod.fst).dedup

/-- The dict comprehension of `Item.serialize`: build
`{name: self.properties[name]}` over `keys_without_aliases()`, each read
going through `__getitem__` (so it may lazy-load or raise, aborting the
comprehension). -/
def serializeGo : List String → Item → Smap → (Except PErr Smap) × Item
  | [], it, d => (.ok d, it)
  | k :: rest, it, d =>
      match pgetitem it k with
      | (.ok v, it1) => serializeGo rest it1 (setA d k v)
      | (.error e, it1) => (.error e, it1)

/-- Run the `_custom_serialize` body of the class on the de-aliased dict.
The `AtomItem` body returns the `_content` entry of the dict — a
`KeyError` when absent. -/
def runSerB : SerBehavior → Smap → Except PErr PyVal
  | .base, _ => .ok (PyVal.str "")
  | .atom, d =>
      match lookupA d "_content" with
      | Option.none => .error .keyError
      | some v => .ok v
  | .custom f, d => f d

/-- Method `Item.serialize()`. -/
def serialize (it : Item) : (Except PErr PyVal) × Item :=
  match serializeGo (keysWithoutAliases it.props) it [] with
  | (.ok d, it1) => (runSerB it1.serB d, it1)
  | (.error e, it1) => (.error e, it1)

/-- Method `AtomItem.read()`. -/
def atomRead (it : Item) : (Except PErr PyVal) × Item :=
  pgetitem it "_content"

/-- Method `AtomItem.write(value)`. -/
def atomWrite (it : Item) (v : PyVal) : Item :=
  psetitem it "_content" v

/-- The fields of an `AccessPoint` that `item.py` consumes
(`default_encoding` and `filename_for` play no role in the claims). -/
structure AccessPoint : Type where
  /-- field `access_point.parser_name` (`None` = no format declared) -/
  parser_name : Option String
  /-- field `access_point.parser_aliases` -/
  parser_aliases : Dict
  /-- field `access_point.storage_aliases` -/
  storage_aliases : Dict
  /-- method `access_point.get_storage_properties()` -/
  storage_property_names : List String

/-- One entry of the parser registry that
`utils.recursive_subclasses(Item)` enumerates after `parser.load()`: a
subclass of `Item`, i.e. its `format` class attribute (`None` stays
hidden) and its two overridable bodies. -/
structure ParserCls : Type where
  fmt : Option String
  parseB : ParseBehavior
  serB : SerBehavior

/-- The subclass loop of `get_item_parser`: first class whose `format`
attribute equals the requested name. -/
def findCls : List ParserCls → String → Option ParserCls
  | [], _ => Option.none
  | c :: rest, f => if c.fmt = some f then some c else findCls rest f

/-- The registered class for `AtomItem` (whose `format` is `binary`). -/
def atomCls : ParserCls :=
  { fmt := some "binary", parseB := .atom, serB := .atom }

/-- Static method `Item.get_item_parser(access_point, opener,
storage_properties)`,
with the registry (the loaded subclasses of `Item`) passed explicitly:
no declared format gives a bare `Item` constructed with opener `None`;
otherwise the first subclass with a matching `format` attribute is
instantiated, and `ParserNotAvailable` carrying the format name is raised
when none matches. -/
def getItemParser (classes : List ParserCls) (ap : AccessPoint)
    (op : Option String) (sp : Smap) : Except PErr Item :=
  match ap.parser_name with
  | Option.none =>
      .ok (mkItem ap.parser_aliases ap.storage_aliases Option.none sp
            .base .base)
  | some f =>
      match findCls classes f with
      | some c =>
          .ok (mkItem ap.parser_aliases ap.storage_aliases op sp
                c.parseB c.serB)
      | Option.none => .error (.parserNotAvailable f)

/-- The `StringIO` default opener of `create_item` / `get_item_parser`:
an opener producing an empty stream. -/
def defaultOp : Option String := some ""

/-- Static method `Item.create_item(access_point, properties)`.  Returns
the item (or the propagated exception) together with the `properties`
dict of the caller as
it stands after the call — the function mutates it when `_content` is
absent.  The item is built by `get_item_parser` with storage properties
all `None`, its old-snapshot is cleared, `_loaded` is forced `True`, and
every property of the (possibly extended) caller dict is applied through
`ItemProperties.__setitem__`. -/
def createItem (classes : List ParserCls) (ap : AccessPoint)
    (callerProps : Smap) : (Except PErr Item) × Smap :=
  let sp : Smap :=
    ap.storage_property_names.foldl
      (fun acc n => setA acc n PyVal.none) []
  match getItemParser classes ap defaultOp sp with
  | .error e => (.error e, callerProps)
  | .ok item0 =>
      let item1 :=
        { item0 with
            props :=
              { item0.props with
                  storage_properties_old := []
                  loaded := true } }
      let props1 :=
        if containsA callerProps "_content" then callerProps
        else setA callerProps "_content" (PyVal.str "")
      let item2 := props1.foldl (fun it nv => psetitem it nv.1 nv.2) item1
      (.ok item2, props1)

/-- One caller-visible operation on an item: a property read, a property
write, or a serialization. -/
inductive Op : Type where
  | read (k : String) : Op
  | write (k : String) (v : PyVal) : Op
  | ser : Op

/-- Run one operation, keeping the item state it leaves behind (a raised
exception propagates to the caller, who may keep using the instance). -/
def runOp (it : Item) : Op → Item
  | .read k => (pgetitem it k).2
  | .write k v => psetitem it k v
  | .ser => (serialize it).2

/-- Run a sequence of operations on one instance. -/
def runOps (it : Item) (ops : List Op) : Item :=
  ops.foldl runOp it

/-- Run a sequence of property reads (used for claims about reads only). -/
def runReads (it : Item) (ks : List String) : Item :=
  ks.foldl (fun i k => (pgetitem i k).2) it

/-- Ghost potential: failed `_parse_data` runs plus one once loaded.  Every
invocation of the parse hook raises it by exactly one, and nothing else
changes it, which makes "at most one invocation while no parse attempt
fails" provable. -/
def phi (it : Item) : Nat :=
  it.parseFailCount + (if it.props.loaded then 1 else 0)

/-- Whether an `Except` result is a normal return. -/
def exOk {α : Type} : Except PErr α → Bool
  | .ok _ => true
  | .error _ => false

/-- The normal return of an `Except`, with a default for the error case. -/
def exGetD {α : Type} : Except PErr α → α → α
  | .ok a, _ => a
  | .error _, d => d

/-- The value `__getitem__` answers on an already-loaded store with
well-formed MultiDict contents: alias resolution, then the storage value
or the first MultiDict value, `None` when absent (a derived view used to
state lemmas about loaded items). -/
def loadedGet (it : Item) (key : String) : PyVal :=
  let k := aliasResolve it.aliases key
  if containsA it.props.storage_properties k then
    (lookupA it.props.storage_properties k).getD PyVal.none
  else
    ((lookupA it.props.md k).getD []).headD PyVal.none

/-- The condition under which the `_content` length check of
`update_parser_properties` raises nothing: the store is loaded (check
skipped), or the first MultiDict value of `_content` exists and has a
length. -/
def contentLenOk (p : ItemProperties) : Bool :=
  p.loaded ||
    (match mdGetFirstE p.md "_content" with
     | .ok v => exOk (pyLen v)
     | .error _ => false)

/-- A throwaway bare item, used only as the default of `Option.getD` on
results that are provably `ok`. -/
def dfltItem : Item :=
  mkItem [] [] Option.none [] .base .base

/-- An access point declaring no format, no aliases, no storage names. -/
def apNone : AccessPoint :=
  ⟨Option.none, [], [], []⟩

/-- An access point declaring the `binary` format. -/
def apBinaryCx : AccessPoint :=
  ⟨some "binary", [], [], []⟩

/-- An access point declaring an unregistered format. -/
def apNopeW : AccessPoint :=
  ⟨some "nope", [], [], []⟩

/-- A fresh (never read, never parsed) `AtomItem` over a stream holding
the text `STREAM`, as `get_item_parser` builds it. -/
def itAtomStreamCx : Item :=
  mkItem [] [] (some "STREAM") [] .atom .atom

/-- The item `create_item` builds for an `AtomItem` access point and an
empty caller dict (an already-loaded atom item). -/
def itAtomLoadedW : Item :=
  exGetD (createItem [atomCls] apBinaryCx []).1 dfltItem

/-- A bare item with one parser alias `x → y` on which `x` was set. -/
def itAliasSetCx : Item :=
  psetitem (mkItem [("x", "y")] [] Option.none [] .base .base)
    "x" (PyVal.str "v")

/-- A loaded item whose MultiDict holds a genuinely multi-valued entry
(as werkzeug permits) under the key `k`. -/
def itMultiW : Item :=
  { aliases := [], opener := Option.none, stream := Option.none,
    parseB := .base, serB := .base,
    props :=
      { loaded := true, storage_properties := [],
        storage_properties_old := [],
        md := [("_content", [PyVal.str ""]),
               ("k", [PyVal.str "one", PyVal.str "two"])],
        parser_content_modified := false },
    parseCount := 0, parseFailCount := 0 }

/-- An unloaded properties store holding a user-set entry `u`, and a
parsed result overwriting `u` (for the merge-policy claim). -/
def propsUserSetW : ItemProperties :=
  { loaded := false,
    storage_properties := [], storage_properties_old := [],
    md := [("_content", [PyVal.str ""]), ("u", [PyVal.str "user"])],
    parser_content_modified := true }

/-- The parsed result used against `propsUserSetW`. -/
def parsedOverW : Mdict :=
  [("u", [PyVal.str "parsed"])]

/-- An item whose parse hook raises on every invocation. -/
def itFailHookCx : Item :=
  mkItem [] [] (some "") [] (.custom (fun _ => .error .hookErr)) .base

/-- A fresh `AtomItem` over a stream holding `c` (its parse succeeds). -/
def itAtomOkW : Item :=
  mkItem [] [] (some "c") [] .atom .atom

/-- A bare item with one storage property `a`. -/
def itStorageW : Item :=
  mkItem [] [] Option.none [("a", PyVal.str "A")] .base .base

/-- An unloaded item with alias `x → y` whose parse hook yields an entry
for `y` (so a lazy parse overwrites a user write to `y`). -/
def itAliasParseCx : Item :=
  mkItem [("x", "y")] [] (some "") []
    (.custom (fun _ => .ok [("y", [PyVal.str "P"])])) .base

/-- A bare item with alias `x → y` where `y` is a storage property. -/
def itAliasStorageW : Item :=
  mkItem [("x", "y")] [] Option.none [("y", PyVal.str "Y")] .base .base

/-- A bare item with alias `n → a` where `a` is a storage property. -/
def itStorageAliasW : Item :=
  mkItem [("n", "a")] [] Option.none [("a", PyVal.str "A")] .base .base

/-- A caller dict without a `_content` key. -/
def cpNoContentW : Smap :=
  [("a", PyVal.str "1")]

/-- The item `create_item` returns for `apNone` and `cpNoContentW`. -/
def itCreateW : Item :=
  exGetD (createItem [] apNone cpNoContentW).1 dfltItem

/-! ### Association-list lemmas -/

theorem lookupA_setA_self {α : Type} (l : List (String × α)) (k : String)
    (v : α) : lookupA (setA l k v) k = some v := by
  induction l with
  | nil => simp [setA, lookupA]
  | cons p rest ih =>
      obtain ⟨k1, v1⟩ := p
      by_cases h : k1 = k
      · simp [setA, h, lookupA]
      · simp [setA, h, lookupA, ih]

theorem lookupA_setA_ne {α : Type} (l : List (String × α)) (k k2 : String)
    (v : α) (h : k2 ≠ k) :
    lookupA (setA l k v) k2 = lookupA l k2 := by
  have h2 : ¬ (k = k2) := fun he => h he.symm
  induction l with
  | nil => simp [setA, lookupA, h2]
  | cons p rest ih =>
      obtain ⟨k1, v1⟩ := p
      by_cases h1 : k1 = k
      · subst h1
        simp [setA, lookupA, h2]
      · simp [setA, h1, lookupA, ih]

theorem containsA_setA_of_containsA {α : Type} (l : List (String × α))
    (k x : String) (v : α) (h : containsA l k = true) :
    containsA (setA l k v) x = containsA l x := by
  by_cases hx : x = k
  · subst hx
    unfold containsA at h ⊢
    rw [lookupA_setA_self, h]
    rfl
  · unfold containsA
    rw [lookupA_setA_ne _ _ _ _ hx]

theorem containsA_exists_mem {α : Type} (l : List (String × α)) (k : String)
    (h : containsA l k = true) : ∃ v, (k, v) ∈ l := by
  induction l with
  | nil => simp [containsA, lookupA] at h
  | cons p rest ih =>
      obtain ⟨k1, v1⟩ := p
      by_cases h1 : k1 = k
      · subst h1; exact ⟨v1, List.mem_cons_self _ _⟩
      · simp only [containsA, lookupA, if_neg h1] at h
        obtain ⟨v, hv⟩ := ih h
        exact ⟨v, List.mem_cons_of_mem _ hv⟩

theorem lookupA_isSome_mem_fst {α : Type} (l : List (String × α))
    (k : String) (h : (lookupA l k).isSome = true) :
    k ∈ l.map Prod.fst := by
  obtain ⟨v, hv⟩ := containsA_exists_mem l k h
  exact List.mem_map.mpr ⟨(k, v), hv, rfl⟩

theorem mdWF_lookup {md : Mdict} {k : String} {vs : List PyVal}
    (hwf : mdWF md = true) (h : lookupA md k = some vs) : vs ≠ [] := by
  induction md with
  | nil => simp [lookupA] at h
  | cons p rest ih =>
      obtain ⟨k1, vs1⟩ := p
      simp only [mdWF, List.all_cons, Bool.and_eq_true] at hwf
      simp only [lookupA] at h
      by_cases h1 : k1 = k
      · rw [if_pos h1] at h
        cases h
        intro hc
        subst hc
        simp at hwf
      · rw [if_neg h1] at h
        exact ih hwf.2 h

theorem mdWF_mdSet {md : Mdict} (k : String) (v : PyVal)
    (hwf : mdWF md = true) : mdWF (mdSet md k v) = true := by
  unfold mdSet
  induction md with
  | nil => simp [setA, mdWF]
  | cons p rest ih =>
      obtain ⟨k1, vs1⟩ := p
      simp only [mdWF, List.all_cons, Bool.and_eq_true] at hwf
      by_cases h1 : k1 = k
      · simp only [setA, if_pos h1, mdWF, List.all_cons, Bool.and_eq_true]
        exact ⟨by simp, hwf.2⟩
      · simp only [setA, if_neg h1, mdWF, List.all_cons, Bool.and_eq_true]
        refine ⟨hwf.1, ?_⟩
        have := ih hwf.2
        simpa [mdWF] using this

/-! ### Field-preservation lemmas for the write path -/

theorem psetitem_parseCount (it : Item) (k : String) (v : PyVal) :
    (psetitem it k v).parseCount = it.parseCount := rfl

theorem psetitem_parseFailCount (it : Item) (k : String) (v : PyVal) :
    (psetitem it k v).parseFailCount = it.parseFailCount := rfl

theorem psetitem_aliases (it : Item) (k : String) (v : PyVal) :
    (psetitem it k v).aliases = it.aliases := rfl

theorem psetitem_serB (it : Item) (k : String) (v : PyVal) :
    (psetitem it k v).serB = it.serB := rfl

theorem psetitem_loaded (it : Item) (k : String) (v : PyVal) :
    (psetitem it k v).props.loaded = it.props.loaded := by
  unfold psetitem propsSetitem
  dsimp only
  split <;> rfl

theorem psetitem_phi (it : Item) (k : String) (v : PyVal) :
    phi (psetitem it k v) = phi it := by
  unfold phi
  rw [psetitem_parseFailCount, psetitem_loaded]

theorem psetitem_storage_contains (it : Item) (key : String) (v : PyVal)
    (x : String) :
    containsA (psetitem it key v).props.storage_properties x
      = containsA it.props.storage_properties x := by
  unfold psetitem propsSetitem
  dsimp only
  split
  · rename_i h
    exact containsA_setA_of_containsA _ _ _ _ h
  · rfl

theorem psetitem_mdWF (it : Item) (k : String) (v : PyVal)
    (h : mdWF it.props.md = true) :
    mdWF (psetitem it k v).props.md = true := by
  unfold psetitem propsSetitem
  dsimp only
  split
  · exact h
  · exact mdWF_mdSet _ _ h

theorem psetitem_modified_mono (it : Item) (k : String) (v : PyVal)
    (h : contentModified it = true) :
    contentModified (psetitem it k v) = true := by
  unfold contentModified at h ⊢
  unfold psetitem propsSetitem
  dsimp only
  split
  · exact h
  · rfl

theorem psetitem_modified_of_not_storage (it : Item) (k : String) (v : PyVal)
    (h : containsA it.props.storage_properties (aliasResolve it.aliases k)
          = false) :
    contentModified (psetitem it k v) = true := by
  unfold contentModified psetitem propsSetitem
  dsimp only
  rw [if_neg (by rw [h]; exact Bool.false_ne_true)]

/-! ### Field-preservation lemmas for stream opening and parsing -/

theorem openStream_props (it : Item) : (openStream it).props = it.props := by
  unfold openStream
  split <;> rfl

theorem openStream_parseCount (it : Item) :
    (openStream it).parseCount = it.parseCount := by
  unfold openStream
  split <;> rfl

theorem openStream_parseFailCount (it : Item) :
    (openStream it).parseFailCount = it.parseFailCount := by
  unfold openStream
  split <;> rfl

theorem update_loaded (p : ItemProperties) (parsed : Mdict) :
    (updateParserProperties p parsed).2.loaded = p.loaded := by
  unfold updateParserProperties
  dsimp only
  split
  · rfl
  · split
    · rfl
    · split <;> rfl

/-! ### Counting lemmas for the lazy-load path -/

theorem parseData_spec (it : Item) :
    (parseData it).2.parseCount = it.parseCount + 1 ∧
    (parseData it).2.props.loaded = it.props.loaded ∧
    (exOk (parseData it).1 = true →
        (parseData it).2.parseFailCount = it.parseFailCount) ∧
    (exOk (parseData it).1 = false →
        (parseData it).2.parseFailCount = it.parseFailCount + 1) := by
  unfold parseData
  dsimp only
  rcases hr : runParseB (openStream it).parseB (openStream it).stream
      (openStream it).parseCount with ⟨r1, st2⟩
  dsimp only
  cases r1 with
  | error e =>
      simp [exOk, openStream_parseCount, openStream_parseFailCount,
        openStream_props]
  | ok parsed =>
      dsimp only
      rcases hu : updateParserProperties (openStream it).props parsed
        with ⟨u1, p2⟩
      have hl : p2.loaded = it.props.loaded := by
        have h2 := update_loaded (openStream it).props parsed
        rw [hu] at h2
        simpa [openStream_props] using h2
      dsimp only
      cases u1 with
      | ok u =>
          simp [exOk, openStream_parseCount, openStream_parseFailCount, hl]
      | error e =>
          simp [exOk, openStream_parseCount, openStream_parseFailCount, hl]

theorem pgetitem_snd_loaded (it : Item) (key : String)
    (h : it.props.loaded = true) :
    (pgetitem it key).2 = it := by
  unfold pgetitem
  dsimp only
  by_cases hc : containsA it.props.storage_properties
      (aliasResolve it.aliases key) = true
  · rw [if_pos hc]
  · rw [if_neg hc, if_pos h]
    split
    · rename_i heq
      simp at heq
    · rename_i a it1 heq
      have hit : it = it1 := by simpa using congrArg Prod.snd heq
      subst hit
      split <;> rfl

theorem pgetitem_storage (it : Item) (key : String)
    (h : containsA it.props.storage_properties (aliasResolve it.aliases key)
          = true) :
    pgetitem it key =
      (.ok ((lookupA it.props.storage_properties
              (aliasResolve it.aliases key)).getD PyVal.none), it) := by
  unfold pgetitem
  dsimp only
  rw [if_pos h]

theorem pgetitem_count_phi (it : Item) (key : String) :
    (pgetitem it key).2.parseCount + phi it
      = it.parseCount + phi (pgetitem it key).2 := by
  by_cases hl : it.props.loaded = true
  · rw [pgetitem_snd_loaded it key hl]
  · by_cases hc : containsA it.props.storage_properties
        (aliasResolve it.aliases key) = true
    · rw [pgetitem_storage it key hc]
    · unfold pgetitem
      dsimp only
      rw [if_neg hc, if_neg hl]
      rcases hp : parseData it with ⟨r, it2⟩
      have hs := parseData_spec it
      rw [hp] at hs
      dsimp only at hs
      have hcnt : it2.parseCount = it.parseCount + 1 := hs.1
      have hload2 : it2.props.loaded = it.props.loaded := hs.2.1
      cases r with
      | ok u =>
          have hfail : it2.parseFailCount = it.parseFailCount :=
            hs.2.2.1 rfl
          dsimp only
          split <;>
          · dsimp only [phi]
            simp only [if_true, hfail, hcnt, if_neg hl]
            omega
      | error e =>
          have hfail : it2.parseFailCount = it.parseFailCount + 1 :=
            hs.2.2.2 rfl
          dsimp only [phi]
          rw [hload2]
          simp only [if_neg hl]
          omega

theorem serializeGo_count_phi (ks : List String) :
    ∀ (it : Item) (d : Smap),
      (serializeGo ks it d).2.parseCount + phi it
        = it.parseCount + phi (serializeGo ks it d).2 := by
  induction ks with
  | nil => intro it d; rfl
  | cons k rest ih =>
      intro it d
      have h1 := pgetitem_count_phi it k
      simp only [serializeGo]
      rcases hg : pgetitem it k with ⟨r, it1⟩
      rw [hg] at h1
      dsimp only at h1
      cases r with
      | ok v =>
          have h2 := ih it1 (setA d k v)
          dsimp only
          omega
      | error e =>
          dsimp only
          omega

theorem serialize_snd (it : Item) :
    (serialize it).2 = (serializeGo (keysWithoutAliases it.props) it []).2 := by
  unfold serialize
  rcases h : serializeGo (keysWithoutAliases it.props) it [] with ⟨r, it1⟩
  cases r <;> simp

theorem serialize_count_phi (it : Item) :
    (serialize it).2.parseCount + phi it
      = it.parseCount + phi (serialize it).2 := by
  rw [serialize_snd]
  exact serializeGo_count_phi _ it []

theorem runOp_count_phi (it : Item) (op : Op) :
    (runOp it op).parseCount + phi it = it.parseCount + phi (runOp it op) := by
  cases op with
  | read k => exact pgetitem_count_phi it k
  | write k v => rw [runOp, psetitem_parseCount, psetitem_phi]
  | ser => exact serialize_count_phi it

theorem runOps_count_phi (ops : List Op) :
    ∀ it : Item,
      (runOps it ops).parseCount + phi it
        = it.parseCount + phi (runOps it ops) := by
  induction ops with
  | nil => intro it; rfl
  | cons op rest ih =>
      intro it
      have h1 := runOp_count_phi it op
      have h2 := ih (runOp it op)
      unfold runOps at h2 ⊢
      rw [List.foldl_cons]
      omega

/-! ### Reads on an already-loaded store -/

theorem pgetitem_loaded (it : Item) (key : String)
    (hl : it.props.loaded = true) (hwf : mdWF it.props.md = true) :
    pgetitem it key = (.ok (loadedGet it key), it) := by
  unfold pgetitem loadedGet
  dsimp only
  by_cases hc : containsA it.props.storage_properties
      (aliasResolve it.aliases key) = true
  · rw [if_pos hc, if_pos hc]
  · rw [if_neg hc, if_neg hc, if_pos hl]
    dsimp only
    rcases hlk : lookupA it.props.md (aliasResolve it.aliases key)
      with - | vs
    · simp [mdGetFirstE, hlk]
    · cases vs with
      | nil => exact absurd rfl (mdWF_lookup hwf hlk)
      | cons v rest => simp [mdGetFirstE, hlk]

theorem runReads_loaded (ks : List String) :
    ∀ it : Item, it.props.loaded = true → runReads it ks = it := by
  induction ks with
  | nil => intro it _; rfl
  | cons k rest ih =>
      intro it hl
      unfold runReads
      rw [List.foldl_cons, pgetitem_snd_loaded it k hl]
      exact ih it hl

theorem lookupA_foldSet (ks : List String) (g : String → PyVal) :
    ∀ (d : Smap) (k0 : String),
      lookupA (ks.foldl (fun d k => setA d k (g k)) d) k0
        = if k0 ∈ ks then some (g k0) else lookupA d k0 := by
  induction ks with
  | nil => intro d k0; simp
  | cons k rest ih =>
      intro d k0
      rw [List.foldl_cons, ih]
      by_cases hm : k0 ∈ rest
      · simp [hm]
      · by_cases he : k0 = k
        · subst he
          simp [hm, lookupA_setA_self]
        · simp [hm, he, lookupA_setA_ne _ _ _ _ he]

theorem serializeGo_loaded (ks : List String) :
    ∀ (it : Item) (d : Smap),
      it.props.loaded = true → mdWF it.props.md = true →
      serializeGo ks it d
        = (.ok (ks.foldl (fun d k => setA d k (loadedGet it k)) d), it) := by
  induction ks with
  | nil => intro it d _ _; rfl
  | cons k rest ih =>
      intro it d hl hwf
      simp only [serializeGo]
      rw [pgetitem_loaded it k hl hwf]
      dsimp only
      rw [ih it (setA d k (loadedGet it k)) hl hwf]
      rw [List.foldl_cons]

/-! ### The parsed-property merge -/

theorem mergeParsed_lookup_notmem (parsed : Mdict) :
    ∀ (md : Mdict) (k : String), k ∉ parsed.map Prod.fst →
      lookupA (mergeParsed md parsed).2 k = lookupA md k := by
  induction parsed with
  | nil => intro md k _; rfl
  | cons p rest ih =>
      intro md k hk
      obtain ⟨k1, vs1⟩ := p
      simp only [List.map_cons, List.mem_cons] at hk
      push_neg at hk
      cases vs1 with
      | nil => rfl
      | cons v vrest =>
          simp only [mergeParsed]
          rw [ih (mdSet md k1 v) k hk.2]
          exact lookupA_setA_ne _ _ _ _ hk.1

theorem mergeParsed_spec (parsed : Mdict) :
    ∀ md : Mdict, mdWF parsed = true → (parsed.map Prod.fst).Nodup →
      (mergeParsed md parsed).1 = .ok () ∧
      (∀ k v vs, (k, v :: vs) ∈ parsed →
        lookupA (mergeParsed md parsed).2 k = some [v]) := by
  induction parsed with
  | nil =>
      intro md _ _
      exact ⟨rfl, by intro k v vs h; simp at h⟩
  | cons p rest ih =>
      intro md hwf hnd
      obtain ⟨k1, vs1⟩ := p
      simp only [mdWF, List.all_cons, Bool.and_eq_true] at hwf
      simp only [List.map_cons, List.nodup_cons] at hnd
      cases vs1 with
      | nil => simp at hwf
      | cons v1 vrest =>
          simp only [mergeParsed]
          obtain ⟨ihok, ihval⟩ := ih (mdSet md k1 v1) hwf.2 hnd.2
          refine ⟨ihok, ?_⟩
          intro k v vs hmem
          rcases List.mem_cons.mp hmem with heq | htail
          · have hk : k = k1 := congrArg Prod.fst heq
            have hv : v :: vs = v1 :: vrest := congrArg Prod.snd heq
            have hv1 : v = v1 := by injection hv
            subst hk
            subst hv1
            rw [mergeParsed_lookup_notmem rest (mdSet md k v) k hnd.1]
            unfold mdSet
            exact lookupA_setA_self _ _ _
          · exact ihval k v vs htail

theorem updateParserProperties_spec (p : ItemProperties) (parsed : Mdict)
    (hok : contentLenOk p = true) (hwf : mdWF parsed = true)
    (hnd : (parsed.map Prod.fst).Nodup) :
    (updateParserProperties p parsed).1 = .ok () ∧
    (∀ k v vs, (k, v :: vs) ∈ parsed →
      lookupA (updateParserProperties p parsed).2.md k = some [v]) := by
  obtain ⟨hmok, hmval⟩ := mergeParsed_spec parsed p.md hwf hnd
  unfold updateParserProperties
  by_cases hl : p.loaded = true
  · rw [if_pos hl]
    dsimp only
    exact ⟨hmok, fun k v vs h => hmval k v vs h⟩
  · have hl2 : p.loaded = false := by
      revert hl; cases p.loaded <;> simp
    rw [if_neg hl]
    unfold contentLenOk at hok
    rw [hl2] at hok
    simp only [Bool.false_or] at hok
    cases hg : mdGetFirstE p.md "_content" with
    | error e => rw [hg] at hok; simp at hok
    | ok v =>
        rw [hg] at hok
        dsimp only at hok
        dsimp only
        cases hpl : pyLen v with
        | error e =>
            rw [hpl] at hok
            dsimp only [exOk] at hok
            exact Bool.noConfusion hok
        | ok n =>
            dsimp only
            exact ⟨hmok, fun k v2 vs h => hmval k v2 vs h⟩

/-! ### Format dispatch -/

theorem propsSetitem_loaded (al : Dict) (p : ItemProperties) (k : String)
    (v : PyVal) : (propsSetitem al p k v).loaded = p.loaded := by
  unfold propsSetitem
  dsimp only
  split <;> rfl

theorem init_loaded (al : Dict) (sp : Smap) :
    (ItemProperties.init al sp).loaded = false := by
  unfold ItemProperties.init
  dsimp only
  rw [propsSetitem_loaded]

theorem findCls_none (classes : List ParserCls) (f : String)
    (h : ∀ c ∈ classes, c.fmt ≠ some f) :
    findCls classes f = Option.none := by
  induction classes with
  | nil => rfl
  | cons c rest ih =>
      unfold findCls
      rw [if_neg (h c (List.mem_cons_self c rest))]
      exact ih (fun c2 hc2 => h c2 (List.mem_cons_of_mem c hc2))

theorem getItemParser_ok_shape (classes : List ParserCls) (ap : AccessPoint)
    (op : Option String) (sp : Smap) (item0 : Item)
    (h : getItemParser classes ap op sp = .ok item0) :
    item0.parseCount = 0 ∧ item0.parseFailCount = 0 ∧
    item0.props.loaded = false := by
  unfold getItemParser at h
  cases hp : ap.parser_name with
  | none =>
      rw [hp] at h
      injection h with h1
      subst h1
      exact ⟨rfl, rfl, init_loaded _ _⟩
  | some f =>
      rw [hp] at h
      dsimp only at h
      cases hf : findCls classes f with
      | none => rw [hf] at h; exact absurd h (by simp)
      | some c =>
          rw [hf] at h
          injection h with h1
          subst h1
          exact ⟨rfl, rfl, init_loaded _ _⟩

/-! ### Folding caller properties through the write path -/

theorem foldSet_loaded (l : List (String × PyVal)) :
    ∀ it : Item,
      (l.foldl (fun it nv => psetitem it nv.1 nv.2) it).props.loaded
        = it.props.loaded := by
  induction l with
  | nil => intro it; rfl
  | cons p rest ih =>
      intro it
      rw [List.foldl_cons, ih, psetitem_loaded]

theorem foldSet_parseCount (l : List (String × PyVal)) :
    ∀ it : Item,
      (l.foldl (fun it nv => psetitem it nv.1 nv.2) it).parseCount
        = it.parseCount := by
  induction l with
  | nil => intro it; rfl
  | cons p rest ih =>
      intro it
      rw [List.foldl_cons, ih, psetitem_parseCount]

theorem foldSet_aliases (l : List (String × PyVal)) :
    ∀ it : Item,
      (l.foldl (fun it nv => psetitem it nv.1 nv.2) it).aliases
        = it.aliases := by
  induction l with
  | nil => intro it; rfl
  | cons p rest ih =>
      intro it
      rw [List.foldl_cons, ih, psetitem_aliases]

theorem foldSet_storage_contains (l : List (String × PyVal)) (x : String) :
    ∀ it : Item,
      containsA
        (l.foldl (fun it nv => psetitem it nv.1 nv.2) it).props.storage_properties
        x = containsA it.props.storage_properties x := by
  induction l with
  | nil => intro it; rfl
  | cons p rest ih =>
      intro it
      rw [List.foldl_cons, ih, psetitem_storage_contains]

theorem foldSet_modified_mono (l : List (String × PyVal)) :
    ∀ it : Item, contentModified it = true →
      contentModified (l.foldl (fun it nv => psetitem it nv.1 nv.2) it)
        = true := by
  induction l with
  | nil => intro it h; exact h
  | cons p rest ih =>
      intro it h
      rw [List.foldl_cons]
      exact ih _ (psetitem_modified_mono _ _ _ h)

theorem foldSet_modified (l : List (String × PyVal)) :
    ∀ (it : Item) (k0 : String) (v0 : PyVal), (k0, v0) ∈ l →
      containsA it.props.storage_properties (aliasResolve it.aliases k0)
        = false →
      contentModified (l.foldl (fun it nv => psetitem it nv.1 nv.2) it)
        = true := by
  induction l with
  | nil => intro it k0 v0 hmem _; simp at hmem
  | cons p rest ih =>
      intro it k0 v0 hmem hns
      rw [List.foldl_cons]
      rcases List.mem_cons.mp hmem with heq | htail
      · subst heq
        dsimp only
        exact foldSet_modified_mono rest _
          (psetitem_modified_of_not_storage it k0 v0 hns)
      · refine ih (psetitem it p.1 p.2) k0 v0 htail ?_
        rw [psetitem_storage_contains, psetitem_aliases]
        exact hns

/-! ### Inversion of `create_item` -/

theorem createItem_ok (classes : List ParserCls) (ap : AccessPoint)
    (cp : Smap) (it : Item) (props1 : Smap)
    (h : createItem classes ap cp = (.ok it, props1)) :
    ∃ item0,
      getItemParser classes ap defaultOp
        (ap.storage_property_names.foldl
          (fun acc n => setA acc n PyVal.none) []) = .ok item0 ∧
      props1 = (if containsA cp "_content" then cp
                else setA cp "_content" (PyVal.str "")) ∧
      it = props1.foldl (fun it nv => psetitem it nv.1 nv.2)
            { item0 with
                props :=
                  { item0.props with
                      storage_properties_old := []
                      loaded := true } } := by
  unfold createItem at h
  dsimp only at h
  cases hg : getItemParser classes ap defaultOp
      (ap.storage_property_names.foldl
        (fun acc n => setA acc n PyVal.none) []) with
  | error e =>
      rw [hg] at h
      dsimp only at h
      exact absurd (congrArg Prod.fst h) (by simp)
  | ok item0 =>
      rw [hg] at h
      dsimp only at h
      have h1 := congrArg Prod.fst h
      have h2 := congrArg Prod.snd h
      dsimp only at h1 h2
      injection h1 with h1
      exact ⟨item0, rfl, h2.symm, by rw [← h1, ← h2]⟩

theorem psetitem_eq_storage (it : Item) (k : String) (v : PyVal)
    (h : containsA it.props.storage_properties (aliasResolve it.aliases k)
          = true) :
    psetitem it k v =
      { it with
          props :=
            { it.props with
                storage_properties :=
                  setA it.props.storage_properties
                    (aliasResolve it.aliases k) v } } := by
  unfold psetitem propsSetitem
  dsimp only
  rw [if_pos h]

theorem psetitem_eq_md (it : Item) (k : String) (v : PyVal)
    (h : containsA it.props.storage_properties (aliasResolve it.aliases k)
          = false) :
    psetitem it k v =
      { it with
          props :=
            { it.props with
                md := mdSet it.props.md (aliasResolve it.aliases k) v
                parser_content_modified := true } } := by
  unfold psetitem propsSetitem
  dsimp only
  rw [if_neg (by simp [h])]

/-! ### Claim theorems -/

/-- Counterexample for C1: `create_item` on a formatless access point with
an empty caller dict yields an item whose `content_modified()` is `True`,
not the claimed false state (the forced `_content` write goes through the
ordinary `__setitem__`, which flips the flag for any non-storage key). -/
theorem C1_cx_create_item_modified :
    Except.map contentModified (createItem [] apNone []).1
      = Except.ok true := rfl

/-- C1 (amended): the item `create_item` returns is pre-marked loaded, its
parse hook has run zero times, and no sequence of subsequent property
reads ever invokes the hook; but `content_modified()` is `true` (not
false) whenever the canonical name of `_content` is not a storage
property, because every caller property — including the always-present
`_content` — is applied through the ordinary dirty-tracking `set` path. -/
theorem C1_create_item_state (classes : List ParserCls) (ap : AccessPoint)
    (cp : Smap) (it : Item) (props1 : Smap)
    (h : createItem classes ap cp = (.ok it, props1)) :
    it.props.loaded = true ∧ it.parseCount = 0 ∧
    (∀ ks : List String, (runReads it ks).parseCount = 0) ∧
    (containsA it.props.storage_properties
        (aliasResolve it.aliases "_content") = false →
      contentModified it = true) := by
  obtain ⟨item0, hg, hp1, hit⟩ := createItem_ok classes ap cp it props1 h
  obtain ⟨hc0, hf0, -⟩ := getItemParser_ok_shape _ _ _ _ _ hg
  have hld : it.props.loaded = true := by
    rw [hit, foldSet_loaded]
  have hcnt : it.parseCount = 0 := by
    rw [hit, foldSet_parseCount]
    exact hc0
  refine ⟨hld, hcnt, ?_, ?_⟩
  · intro ks
    rw [runReads_loaded ks it hld]
    exact hcnt
  · intro hns
    have hcont : containsA props1 "_content" = true := by
      rw [hp1]
      split
      · rename_i h2
        exact h2
      · unfold containsA
        rw [lookupA_setA_self]
        rfl
    obtain ⟨w, hw⟩ := containsA_exists_mem props1 "_content" hcont
    rw [hit] at hns ⊢
    rw [foldSet_storage_contains, foldSet_aliases] at hns
    exact foldSet_modified props1 _ "_content" w hw hns

/-- Witness for C1: the item built by `create_item` over `apNone` is
loaded, reads never parse, and its modified flag is `true`. -/
theorem C1_witness :
    itCreateW.props.loaded = true ∧
    (runReads itCreateW ["a", "b", "a"]).parseCount = 0 ∧
    contentModified itCreateW = true :=
  ⟨(C1_create_item_state [] apNone cpNoContentW itCreateW
      (createItem [] apNone cpNoContentW).2 rfl).1,
   (C1_create_item_state [] apNone cpNoContentW itCreateW
      (createItem [] apNone cpNoContentW).2 rfl).2.2.1 ["a", "b", "a"],
   (C1_create_item_state [] apNone cpNoContentW itCreateW
      (createItem [] apNone cpNoContentW).2 rfl).2.2.2 (by decide)⟩

/-- Counterexample for C3: with alias `x → y`, after `set` of `x` the read
`get(x)` answers the written value, but `get_all(x)` (werkzeug
`getlist`) is empty — it resolves no alias — so its first element does
not equal `get(x)` and it does not behave like `get`. -/
theorem C3_cx_getlist_no_alias :
    (pgetitem itAliasSetCx "x").1 = .ok (PyVal.str "v") ∧
    getlist itAliasSetCx "x" = [] ∧
    (getlist itAliasSetCx "x").head? ≠ some (PyVal.str "v") :=
  ⟨rfl, rfl, by decide⟩

/-- C3 (amended): `get_all` is the inherited MultiDict `getlist`: it
performs no alias resolution, no storage shadowing and no lazy parse,
returning the raw parsed-origin sequence of the literal key (empty when
absent); consequently `get_all(k).head = get(k)` holds only when the
store is loaded and `k` is unaliased, not storage-backed, and present in
the parsed-origin store. -/
theorem C3_getlist_raw (it : Item) (k : String) :
    (lookupA it.props.md k = Option.none → getlist it k = []) ∧
    (∀ v vs, it.props.loaded = true →
      lookupA it.aliases k = Option.none →
      containsA it.props.storage_properties k = false →
      lookupA it.props.md k = some (v :: vs) →
      getlist it k = v :: vs ∧ pgetitem it k = (.ok v, it)) := by
  constructor
  · intro h
    unfold getlist
    rw [h]
    rfl
  · intro v vs hl ha hc hmd
    have hres : aliasResolve it.aliases k = k := by
      unfold aliasResolve
      rw [ha]
      rfl
    constructor
    · unfold getlist
      rw [hmd]
      rfl
    · unfold pgetitem
      dsimp only
      rw [hres]
      rw [if_neg (by simp [hc]), if_pos hl]
      dsimp only
      unfold mdGetFirstE
      rw [hmd]

/-- Witness for C3: a loaded item with a multi-valued entry `k`: the full
sequence comes back, its head equals the `get` value, and an absent key
gives the empty sequence. -/
theorem C3_witness :
    getlist itMultiW "k" = [PyVal.str "one", PyVal.str "two"] ∧
    pgetitem itMultiW "k" = (.ok (PyVal.str "one"), itMultiW) ∧
    getlist itMultiW "absent" = [] :=
  ⟨((C3_getlist_raw itMultiW "k").2 (PyVal.str "one") [PyVal.str "two"]
      rfl rfl rfl rfl).1,
   ((C3_getlist_raw itMultiW "k").2 (PyVal.str "one") [PyVal.str "two"]
      rfl rfl rfl rfl).2,
   (C3_getlist_raw itMultiW "absent").1 rfl⟩

/-- Counterexample for C8: with alias `x → y` on an unloaded item whose
parse yields a value for `y`, `set(x, v)` followed by `get(x)` answers
the parsed value, not `v` — the lazy parse overwrites the user write, so
the alias round-trip claim fails as stated. -/
theorem C8_cx_parse_overwrites :
    lookupA itAliasParseCx.aliases "x" = some "y" ∧
    (pgetitem (psetitem itAliasParseCx "x" (PyVal.str "v")) "x").1
      = .ok (PyVal.str "P") ∧
    PyVal.str "P" ≠ PyVal.str "v" :=
  ⟨rfl, rfl, by decide⟩

/-- C8 (amended): for an alias `a → c` whose target `c` is canonical
(resolves to itself), `set(a, v)` makes both `get(a)` and `get(c)` answer
`v`, provided `c` is storage-origin or the store is already loaded (an
unloaded parsed-origin read would first run the parser-wins merge). -/
theorem C8_alias_roundtrip (it : Item) (a c : String) (v : PyVal)
    (hac : lookupA it.aliases a = some c)
    (hcc : lookupA it.aliases c = Option.none)
    (hok : containsA it.props.storage_properties c = true
           ∨ it.props.loaded = true) :
    (pgetitem (psetitem it a v) a).1 = .ok v ∧
    (pgetitem (psetitem it a v) c).1 = .ok v := by
  have hra : aliasResolve it.aliases a = c := by
    unfold aliasResolve
    rw [hac]
    rfl
  have hrc : aliasResolve it.aliases c = c := by
    unfold aliasResolve
    rw [hcc]
    rfl
  have key : ∀ x : String, aliasResolve it.aliases x = c →
      (pgetitem (psetitem it a v) x).1 = .ok v := by
    intro x hrx
    by_cases hcs : containsA it.props.storage_properties c = true
    · rw [psetitem_eq_storage it a v (by rw [hra]; exact hcs)]
      rw [hra]
      rw [pgetitem_storage _ x
        (by dsimp only; rw [hrx]; unfold containsA; rw [lookupA_setA_self]; rfl)]
      dsimp only
      rw [hrx, lookupA_setA_self]
      rfl
    · have hl : it.props.loaded = true := hok.resolve_left hcs
      have hcs2 : containsA it.props.storage_properties c = false := by
        revert hcs
        cases containsA it.props.storage_properties c <;> simp
      rw [psetitem_eq_md it a v (by rw [hra]; exact hcs2)]
      rw [hra]
      unfold pgetitem
      dsimp only
      rw [hrx]
      rw [if_neg (by simpa using hcs), if_pos hl]
      dsimp only
      unfold mdGetFirstE mdSet
      rw [lookupA_setA_self]
  exact ⟨key a hra, key c hrc⟩

/-- Witness for C8: alias `x → y` with `y` a storage property: writing
through the alias is read back through both names. -/
theorem C8_witness :
    (pgetitem (psetitem itAliasStorageW "x" (PyVal.str "v")) "x").1
      = .ok (PyVal.str "v") ∧
    (pgetitem (psetitem itAliasStorageW "x" (PyVal.str "v")) "y").1
      = .ok (PyVal.str "v") :=
  C8_alias_roundtrip itAliasStorageW "x" "y" (PyVal.str "v") rfl rfl
    (Or.inl (by decide))

/-- C4: when the lazy-load merge runs (and the `_content` length check does
not raise), every name present in the freshly parsed result overwrites the
parsed-origin entry of that name unconditionally — the parser wins,
including over names previously set by the user, because the guard in the
loop is `if True or ...` and never suppresses a parsed value. -/
theorem C4_parser_wins (p : ItemProperties) (parsed : Mdict)
    (hok : contentLenOk p = true) (hwf : mdWF parsed = true)
    (hnd : (parsed.map Prod.fst).Nodup) :
    (updateParserProperties p parsed).1 = .ok () ∧
    ∀ k v vs, (k, v :: vs) ∈ parsed →
      lookupA (updateParserProperties p parsed).2.md k = some [v] :=
  updateParserProperties_spec p parsed hok hwf hnd

/-- Witness for C4: the user-set entry `u` of `propsUserSetW` is
overwritten by the parsed value. -/
theorem C4_witness :
    (updateParserProperties propsUserSetW parsedOverW).1 = .ok () ∧
    lookupA (updateParserProperties propsUserSetW parsedOverW).2.md "u"
      = some [PyVal.str "parsed"] :=
  ⟨(C4_parser_wins propsUserSetW parsedOverW (by decide) (by decide)
      (by decide)).1,
   (C4_parser_wins propsUserSetW parsedOverW (by decide) (by decide)
      (by decide)).2 "u" (PyVal.str "parsed") [] (by decide)⟩

/-- Counterexample for C5: an item whose parse hook raises is parsed again
on the next read, so two reads invoke the hook twice — the claim that the
hook runs at most once even across failing parse attempts is false. -/
theorem C5_cx_two_invocations :
    (runOps itFailHookCx [Op.read "p", Op.read "p"]).parseCount = 2 := rfl

/-- C5 (amended): over any operation sequence on a fresh instance, the
number of parse-hook invocations equals the number of failed parse
attempts plus one once the store is loaded; in particular, as long as no
parse attempt raises, the hook is invoked at most once.  A raising
attempt leaves the store unloaded, so a later read may invoke the hook
again. -/
theorem C5_parse_at_most_once (it : Item) (ops : List Op)
    (h1 : it.parseCount = 0) (h2 : it.parseFailCount = 0)
    (h3 : it.props.loaded = false) :
    (runOps it ops).parseCount
      = (runOps it ops).parseFailCount
        + (if (runOps it ops).props.loaded then 1 else 0) ∧
    ((runOps it ops).parseFailCount = 0 →
      (runOps it ops).parseCount ≤ 1) := by
  have h := runOps_count_phi ops it
  unfold phi at h
  rw [h1, h2, h3] at h
  constructor
  · cases hl : (runOps it ops).props.loaded <;>
      rw [hl] at h <;> simp at h ⊢ <;> omega
  · intro hz
    cases hl : (runOps it ops).props.loaded <;>
      rw [hl] at h <;> simp at h <;> omega

/-- Witness for C5: a fresh atom item over a readable stream, read twice:
zero failed attempts and exactly one hook invocation. -/
theorem C5_witness :
    ((runOps itAtomOkW [Op.read "p", Op.read "p"]).parseCount
      = (runOps itAtomOkW [Op.read "p", Op.read "p"]).parseFailCount
        + (if (runOps itAtomOkW [Op.read "p", Op.read "p"]).props.loaded
           then 1 else 0)) ∧
    ((runOps itAtomOkW [Op.read "p", Op.read "p"]).parseFailCount = 0 →
      (runOps itAtomOkW [Op.read "p", Op.read "p"]).parseCount ≤ 1) :=
  C5_parse_at_most_once itAtomOkW [Op.read "p", Op.read "p"] rfl rfl rfl

/-- C6: an access point whose format matches no registered class makes
`get_item_parser` raise `ParserNotAvailable` carrying that format name,
and an access point declaring no format yields a bare `Item` (constructed
with opener `None` and the trivial parse/serialize bodies of class
`Item`). -/
theorem C6_format_dispatch (classes : List ParserCls) (ap : AccessPoint)
    (op : Option String) (sp : Smap) :
    (∀ f, ap.parser_name = some f →
      (∀ c ∈ classes, c.fmt ≠ some f) →
      getItemParser classes ap op sp
        = .error (.parserNotAvailable f)) ∧
    (ap.parser_name = Option.none →
      getItemParser classes ap op sp
        = .ok (mkItem ap.parser_aliases ap.storage_aliases Option.none sp
            ParseBehavior.base SerBehavior.base)) := by
  constructor
  · intro f hp hno
    unfold getItemParser
    rw [hp]
    dsimp only
    rw [findCls_none classes f hno]
  · intro hp
    unfold getItemParser
    rw [hp]

/-- Witness for C6: the format `nope` raises `ParserNotAvailable "nope"`
against a registry holding only the atom class, and a formatless access
point yields the bare item. -/
theorem C6_witness :
    getItemParser [atomCls] apNopeW (some "") []
      = .error (.parserNotAvailable "nope") ∧
    getItemParser [atomCls] apNone (some "") []
      = .ok (mkItem [] [] Option.none [] ParseBehavior.base
          SerBehavior.base) :=
  ⟨(C6_format_dispatch [atomCls] apNopeW (some "") []).1 "nope" rfl
      (by intro c hc; simp only [List.mem_singleton] at hc; subst hc; decide),
   (C6_format_dispatch [atomCls] apNone (some "") []).2 rfl⟩

/-- C7: a `set` whose name resolves to a storage-origin key never changes
the content-modified flag, while a `set` whose name resolves to a
non-storage key always turns it on. -/
theorem C7_storage_isolation (it : Item) (name : String) (v : PyVal) :
    (containsA it.props.storage_properties
        (aliasResolve it.aliases name) = true →
      contentModified (psetitem it name v) = contentModified it) ∧
    (containsA it.props.storage_properties
        (aliasResolve it.aliases name) = false →
      contentModified (psetitem it name v) = true) := by
  constructor
  · intro h
    unfold contentModified psetitem propsSetitem
    dsimp only
    rw [if_pos h]
  · intro h
    exact psetitem_modified_of_not_storage it name v h

/-- Witness for C7: on an item with storage property `a`, writing `a`
keeps the flag, writing `b` raises it. -/
theorem C7_witness :
    (contentModified (psetitem itStorageW "a" (PyVal.str "x"))
      = contentModified itStorageW) ∧
    contentModified (psetitem itStorageW "b" (PyVal.str "x")) = true :=
  ⟨(C7_storage_isolation itStorageW "a" (PyVal.str "x")).1 (by decide),
   (C7_storage_isolation itStorageW "b" (PyVal.str "x")).2 (by decide)⟩

/-- C9: a read whose name resolves to a storage-origin key answers the
storage value (shadowing any parsed-origin or default value) and leaves
the item completely unchanged — no lazy load is triggered. -/
theorem C9_storage_precedence (it : Item) (name : String)
    (h : containsA it.props.storage_properties
          (aliasResolve it.aliases name) = true) :
    pgetitem it name =
      (.ok ((lookupA it.props.storage_properties
              (aliasResolve it.aliases name)).getD PyVal.none), it) :=
  pgetitem_storage it name h

/-- Witness for C9: reading the alias `n` of the storage key `a` answers
the storage value with the item unchanged. -/
theorem C9_witness :
    pgetitem itStorageAliasW "n" =
      (.ok ((lookupA itStorageAliasW.props.storage_properties
              (aliasResolve itStorageAliasW.aliases "n")).getD PyVal.none),
       itStorageAliasW) :=
  C9_storage_precedence itStorageAliasW "n" (by decide)

/-- C10: when the caller dict lacks a `_content` key and `create_item`
returns normally, the dict observed after the call is the caller dict
with `_content` mapped to the empty string appended — the function mutates
the dict object passed in. -/
theorem C10_caller_dict_mutation (classes : List ParserCls)
    (ap : AccessPoint) (cp : Smap) (it : Item) (props1 : Smap)
    (hnc : containsA cp "_content" = false)
    (h : createItem classes ap cp = (.ok it, props1)) :
    props1 = setA cp "_content" (PyVal.str "") ∧
    lookupA props1 "_content" = some (PyVal.str "") := by
  obtain ⟨item0, hg, hp1, hit⟩ := createItem_ok classes ap cp it props1 h
  have hp : props1 = setA cp "_content" (PyVal.str "") := by
    rw [hp1, if_neg (by simp [hnc])]
  exact ⟨hp, by rw [hp]; exact lookupA_setA_self _ _ _⟩

/-- Witness for C10: a caller dict holding only `a` comes back with
`_content` appended. -/
theorem C10_witness :
    (createItem [] apNone cpNoContentW).2
      = setA cpNoContentW "_content" (PyVal.str "") ∧
    lookupA (createItem [] apNone cpNoContentW).2 "_content"
      = some (PyVal.str "") :=
  C10_caller_dict_mutation [] apNone cpNoContentW itCreateW
    (createItem [] apNone cpNoContentW).2 (by decide) rfl

/-- Counterexample for C2: a fresh (not yet loaded) `AtomItem` over a
stream holding `STREAM`: `write("payload")` then `serialize()` answers
the stream contents, not the payload — the serialization triggered the
lazy parse, whose parser-wins merge overwrote the written `_content`. -/
theorem C2_cx_parse_overwrites_write :
    getItemParser [atomCls] apBinaryCx (some "STREAM") []
      = .ok itAtomStreamCx ∧
    (serialize (atomWrite itAtomStreamCx (PyVal.str "payload"))).1
      = .ok (PyVal.str "STREAM") ∧
    PyVal.str "STREAM" ≠ PyVal.str "payload" :=
  ⟨rfl, rfl, by decide⟩

theorem serialize_loaded_content (it2 : Item) (payload : PyVal)
    (hs2 : it2.serB = SerBehavior.atom)
    (hl2 : it2.props.loaded = true)
    (hwf2 : mdWF it2.props.md = true)
    (hmem : "_content" ∈ keysWithoutAliases it2.props)
    (hval : loadedGet it2 "_content" = payload) :
    (serialize it2).1 = .ok payload := by
  unfold serialize
  rw [serializeGo_loaded (keysWithoutAliases it2.props) it2 [] hl2 hwf2]
  dsimp only
  rw [hs2]
  unfold runSerB
  dsimp only
  rw [lookupA_foldSet (keysWithoutAliases it2.props) (loadedGet it2)
    [] "_content"]
  rw [if_pos hmem, hval]

/-- C2 (amended): for an `AtomItem` whose property store is already
loaded (with well-formed MultiDict contents and `_content` not remapped
by an alias), `write(payload)` followed by `serialize()` returns exactly
the payload; and `write` itself never invokes the parse hook, on any
item.  Without the loaded hypothesis the round trip fails: the first
read inside `serialize` runs the lazy parse and its parser-wins merge
overwrites the written `_content`. -/
theorem C2_write_serialize (it : Item) (payload : PyVal)
    (hs : it.serB = SerBehavior.atom)
    (hl : it.props.loaded = true)
    (hwf : mdWF it.props.md = true)
    (ha : lookupA it.aliases "_content" = Option.none) :
    (serialize (atomWrite it payload)).1 = .ok payload ∧
    (atomWrite it payload).parseCount = it.parseCount := by
  refine ⟨?_, rfl⟩
  have hres : aliasResolve it.aliases "_content" = "_content" := by
    unfold aliasResolve
    rw [ha]
    rfl
  by_cases hcs : containsA it.props.storage_properties "_content" = true
  · rw [show atomWrite it payload = psetitem it "_content" payload from rfl,
      psetitem_eq_storage it "_content" payload (by rw [hres]; exact hcs),
      hres]
    apply serialize_loaded_content
    · exact hs
    · exact hl
    · exact hwf
    · unfold keysWithoutAliases
      dsimp only
      rw [List.mem_dedup]
      apply List.mem_append_right
      apply lookupA_isSome_mem_fst
      rw [lookupA_setA_self]
      rfl
    · unfold loadedGet
      dsimp only
      rw [hres]
      rw [if_pos (by unfold containsA; rw [lookupA_setA_self]; rfl)]
      rw [lookupA_setA_self]
      rfl
  · have hcs2 : containsA it.props.storage_properties "_content" = false := by
      revert hcs
      cases containsA it.props.storage_properties "_content" <;> simp
    rw [show atomWrite it payload = psetitem it "_content" payload from rfl,
      psetitem_eq_md it "_content" payload (by rw [hres]; exact hcs2),
      hres]
    apply serialize_loaded_content
    · exact hs
    · exact hl
    · exact mdWF_mdSet _ _ hwf
    · unfold keysWithoutAliases
      dsimp only
      rw [List.mem_dedup]
      apply List.mem_append_left
      apply lookupA_isSome_mem_fst
      unfold mdSet
      rw [lookupA_setA_self]
      rfl
    · unfold loadedGet
      dsimp only
      rw [hres]
      rw [if_neg (by simp [hcs2])]
      unfold mdSet
      rw [lookupA_setA_self]
      rfl

/-- Witness for C2: on the loaded atom item built by `create_item`,
writing a payload and serializing returns that payload, and the write
left the hook invocation count unchanged. -/
theorem C2_witness :
    (serialize (atomWrite itAtomLoadedW (PyVal.str "pay"))).1
      = .ok (PyVal.str "pay") ∧
    (atomWrite itAtomLoadedW (PyVal.str "pay")).parseCount
      = itAtomLoadedW.parseCount :=
  C2_write_serialize itAtomLoadedW (PyVal.str "pay") rfl (by decide)
    (by decide) rfl

end Kalamar
